import Mathlib

/-!
Verification of the distribution-plot generator (src/generate_plot.py).

The script loads a ranked list of team records, evaluates a normal
probability density per record over a fixed sample domain, rescales the
curve by the record's standard deviation, assigns colors, line styles,
line widths, opacities, area fills and legend labels by sequence index,
and saves one image.  The definitions below are a shallow embedding of
that pipeline: real-valued computation is modelled on ℝ, the style
constants on ℚ, names and labels as lists of characters.
-/

/-- One input record, from the JSON file: fields rank, team_name,
mean_elo, std_dev (lines 49-50, 67, 74 of the script). -/
structure Team where
  rank : Nat
  team_name : List Char
  mean_elo : ℝ
  std_dev : ℝ

/-- The color palette (lines 18-39): twenty hex colors. -/
def colors : List String :=
  [ "#1f77b4", "#ff7f0e", "#2ca02c", "#d62728", "#9467bd",
    "#8c564b", "#e377c2", "#7f7f7f", "#bcbd22", "#17becf",
    "#aec7e8", "#ffbb78", "#98df8a", "#ff9896", "#c5b0d5",
    "#c49c94", "#f7b6d2", "#c7c7c7", "#dbdb8d", "#9edae5" ]

/-- The dash patterns (line 42). -/
def line_styles : List String := [ "-", "--", "-.", ":" ]

/-- Line 59: colors[i % len(colors)].  Python indexing with an in-range
index; the default of getD is never used since i % length < length. -/
def colorOf (i : Nat) : String := colors.getD (i % colors.length) ""

/-- Line 60: line_styles[(i // 10) % len(line_styles)]. -/
def lineStyleOf (i : Nat) : String :=
  line_styles.getD ((i / 10) % line_styles.length) ""

/-- Line 63: linewidth = 2.5 if i < 6 else 1.8 (exact decimal literals,
modelled in ℚ). -/
def linewidthOf (i : Nat) : ℚ := if i < 6 then 2.5 else 1.8

/-- Line 64: alpha = 0.9 if i < 6 else 0.7. -/
def alphaOf (i : Nat) : ℚ := if i < 6 then 0.9 else 0.7

/-- Lines 80-81: the area under the curve is filled exactly when i < 3. -/
def fillOf (i : Nat) : Bool := i < 3

/-- Fuel-indexed worker for Python str.replace with empty replacement:
scan left to right; at a match of pat, drop it and continue after the
match (no rescan of the removed region); otherwise keep the character.
The fuel is consumed one unit per step and each step consumes at least
one character, so fuel = length of the input always suffices. -/
def replaceDelAux (pat : List Char) : Nat → List Char → List Char
  | _, [] => []
  | 0, s => s
  | fuel + 1, c :: rest =>
    if pat ≠ [] ∧ pat.isPrefixOf (c :: rest) then
      replaceDelAux pat fuel (rest.drop (pat.length - 1))
    else
      c :: replaceDelAux pat fuel rest

/-- Python s.replace(pat, two quotes): delete every non-overlapping
occurrence of pat in s, scanning left to right in a single pass. -/
def replaceDel (s pat : List Char) : List Char := replaceDelAux pat s.length s

/-- Lines 67-72: the chained replace calls shortening a team name, in
source order. -/
def shortName (s : List Char) : List Char :=
  let n := replaceDel s (" Crimson Tide".toList)
  let n := replaceDel n (" Volunteers".toList)
  let n := replaceDel n (" Blue Devils".toList)
  let n := replaceDel n (" Spartans".toList)
  let n := replaceDel n (" Cougars".toList)
  let n := replaceDel n (" Wildcats".toList)
  let n := replaceDel n (" Red Storm".toList)
  let n := replaceDel n (" Tigers".toList)
  let n := replaceDel n (" Terrapins".toList)
  let n := replaceDel n (" Owls".toList)
  let n := replaceDel n (" Wolverines".toList)
  let n := replaceDel n (" Aggies".toList)
  let n := replaceDel n (" Razorbacks".toList)
  let n := replaceDel n (" Rebels".toList)
  let n := replaceDel n (" Red Raiders".toList)
  let n := replaceDel n (" Gators".toList)
  n

/-- The fixed suffix tokens of lines 67-72, in the order they are
applied. -/
def suffixTokens : List (List Char) :=
  [ (" Crimson Tide".toList), (" Volunteers".toList),
    (" Blue Devils".toList), (" Spartans".toList),
    (" Cougars".toList), (" Wildcats".toList),
    (" Red Storm".toList), (" Tigers".toList),
    (" Terrapins".toList), (" Owls".toList),
    (" Wolverines".toList), (" Aggies".toList),
    (" Razorbacks".toList), (" Rebels".toList),
    (" Red Raiders".toList), (" Gators".toList) ]

/-- Line 74: the legend label, rank rendered in decimal followed by a
period, a space and the shortened name. -/
def labelOf (rank : Nat) (team_name : List Char) : List Char :=
  Nat.toDigits 10 rank ++ (". ".toList) ++ shortName team_name

/-- The legend label of a record. -/
def label (t : Team) : List Char := labelOf t.rank t.team_name

/-- The normal probability density function evaluated by line 53
(scipy stats.norm.pdf): exp(-(x-mean)^2/(2 std^2)) / (std sqrt(2 pi)).
Meaningful for std > 0; for std ≤ 0 scipy returns an invalid-value
marker (nan) instead of raising, so the pipeline below never fails. -/
noncomputable def normPdf (x mean std : ℝ) : ℝ :=
  Real.exp (-(x - mean) ^ 2 / (2 * std ^ 2)) / (std * Real.sqrt (2 * Real.pi))

/-- Line 56: the rendered curve value, pdf * std * 2.5. -/
noncomputable def pdf_scaled (x mean std : ℝ) : ℝ :=
  normPdf x mean std * std * 2.5

/-- Line 45: np.linspace(1200, 2600, 500), i.e. 500 evenly spaced
samples including both endpoints, with step (2600 - 1200)/499. -/
noncomputable def xs : List ℝ :=
  (List.range 500).map (fun i => 1200 + (i : ℝ) * ((2600 - 1200) / 499))

/-- The rendered curve of one record: lines 53-56 evaluated over the
sample domain. -/
noncomputable def curve (t : Team) : List ℝ :=
  xs.map (fun x => pdf_scaled x t.mean_elo t.std_dev)

/-- The error taxonomy named by the specification, declared so the
claimed failure modes are statable; the script itself defines no such
errors and raises nothing on the modelled path. -/
inductive RenderError where
  | emptyInput
  | invalidParameter

/-- Everything the script puts into the figure before saving: one curve
per record together with its style, fill flag and legend label, the
x-limits, the resolution, whether savefig was reached, and the message
printed to stdout. -/
structure RenderOutput where
  curves : List (List ℝ)
  curveColors : List String
  curveStyles : List String
  curveWidths : List ℚ
  curveAlphas : List ℚ
  curveFills : List Bool
  legendLabels : List (List Char)
  xlim : ℝ × ℝ
  dpi : Nat
  saved : Bool
  stdoutMessage : List Char

/-- The whole pipeline, lines 48-110 of the script.  The loop body
raises for no record: scipy signals an invalid scale by returning nan
rather than raising, and the drawing calls accept any values.  There is
no validation of the input list anywhere, so every list - including the
empty one - reaches savefig and the confirmation print; hence the
translation has no error branch. -/
noncomputable def render (teams : List Team) :
    Except RenderError RenderOutput :=
  Except.ok
    { curves := teams.map curve
      curveColors := (List.range teams.length).map colorOf
      curveStyles := (List.range teams.length).map lineStyleOf
      curveWidths := (List.range teams.length).map linewidthOf
      curveAlphas := (List.range teams.length).map alphaOf
      curveFills := (List.range teams.length).map fillOf
      legendLabels := teams.map label
      xlim := (1200, 2600)
      dpi := 150
      saved := true
      stdoutMessage := ("Saved elo_distributions.png".toList) }

/-- Whether a run produced the image file. -/
def isSaved : Except RenderError RenderOutput → Bool
  | Except.ok o => o.saved
  | Except.error _ => false

/-- Whether a run completed without signalling an error. -/
def renderOk : Except RenderError RenderOutput → Bool
  | Except.ok _ => true
  | Except.error _ => false

/-- The drawn curves of a run. -/
def curvesOf : Except RenderError RenderOutput → List (List ℝ)
  | Except.ok o => o.curves
  | Except.error _ => []

/-- The colors of a run. -/
def colorsOf : Except RenderError RenderOutput → List String
  | Except.ok o => o.curveColors
  | Except.error _ => []

/-- The dash patterns of a run. -/
def stylesOf : Except RenderError RenderOutput → List String
  | Except.ok o => o.curveStyles
  | Except.error _ => []

/-- The line widths of a run. -/
def widthsOf : Except RenderError RenderOutput → List ℚ
  | Except.ok o => o.curveWidths
  | Except.error _ => []

/-- The opacities of a run. -/
def alphasOf : Except RenderError RenderOutput → List ℚ
  | Except.ok o => o.curveAlphas
  | Except.error _ => []

/-- The fill flags of a run. -/
def fillsOf : Except RenderError RenderOutput → List Bool
  | Except.ok o => o.curveFills
  | Except.error _ => []

/-- The legend labels of a run. -/
def labelsOf : Except RenderError RenderOutput → List (List Char)
  | Except.ok o => o.legendLabels
  | Except.error _ => []

/-- Ambient state a run could in principle observe (a random seed, a
clock).  The script reads none of it: no random module, no time, no
environment variables on the modelled path. -/
structure Env where
  seed : Nat
  clock : Nat

/-- A run of the program in an ambient environment.  The source draws
on no randomness or ambient state, so a run is the pure render of the
input records. -/
noncomputable def renderRun (_e : Env) (teams : List Team) :
    Except RenderError RenderOutput := render teams

/-- Records agreeing on everything the drawing reads apart from rank:
the name (which feeds the label body) and the distribution parameters
(which feed the curve). -/
def TeamVisualEq (t u : Team) : Prop :=
  t.team_name = u.team_name ∧ t.mean_elo = u.mean_elo ∧ t.std_dev = u.std_dev

/-- Helper: filtering the first n indices by a predicate that holds
exactly below a cutoff k keeps min n k of them. -/
theorem length_filter_range_lt (k : Nat) (p : Nat → Bool)
    (hp : ∀ i, p i = true ↔ i < k) (n : Nat) :
    ((List.range n).filter p).length = min n k := by
  induction n with
  | zero => simp
  | succ m ih =>
    rw [List.range_succ, List.filter_append, List.length_append, ih]
    by_cases h : m < k
    · have hpm : p m = true := (hp m).mpr h
      simp [List.filter_cons, hpm]
      omega
    · have hpm : p m = false := by
        cases hpm : p m with
        | false => rfl
        | true => exact absurd ((hp m).mp hpm) h
      simp [List.filter_cons, hpm]
      omega

/-- C5: for N records, exactly min(N,3) curves are filled and exactly
min(N,6) get the leading treatment (linewidth 2.5 and alpha 0.9, versus
1.8 and 0.7 for the rest); the treated curves are exactly the ones at
the first sequence positions. -/
theorem C5_leading_counts (n : Nat) :
    ((List.range n).filter (fun i => fillOf i)).length = min n 3 ∧
    ((List.range n).filter
      (fun i => decide (linewidthOf i = 2.5 ∧ alphaOf i = 0.9))).length
      = min n 6 ∧
    (∀ i : Nat, fillOf i = true ↔ i < 3) ∧
    (∀ i : Nat, (linewidthOf i = 2.5 ∧ alphaOf i = 0.9) ↔ i < 6) ∧
    (∀ i : Nat, (linewidthOf i = 1.8 ∧ alphaOf i = 0.7) ↔ 6 ≤ i) := by
  have hfill : ∀ i : Nat, fillOf i = true ↔ i < 3 := by
    intro i; simp [fillOf]
  have hlead : ∀ i : Nat, (linewidthOf i = 2.5 ∧ alphaOf i = 0.9) ↔ i < 6 := by
    intro i
    constructor
    · intro h
      by_contra hge
      simp only [linewidthOf, alphaOf, if_neg hge] at h
      exact absurd h.1 (by norm_num)
    · intro h
      simp [linewidthOf, alphaOf, if_pos h]
  refine ⟨length_filter_range_lt 3 _ hfill n, ?_, hfill, hlead, ?_⟩
  · refine length_filter_range_lt 6 _ ?_ n
    intro i
    simpa using hlead i
  · intro i
    constructor
    · intro h
      by_contra hlt
      simp only [linewidthOf, alphaOf, if_pos (by omega : i < 6)] at h
      exact absurd h.1 (by norm_num)
    · intro h
      simp [linewidthOf, alphaOf, if_neg (by omega : ¬ i < 6)]

/-- Witness for C5 at n = 10. -/
theorem C5_leading_counts_witness :
    (((List.range 10).filter (fun i => fillOf i)).length = min 10 3) ∧
    (fillOf 2 = true ↔ 2 < 3) ∧
    ((linewidthOf 5 = 2.5 ∧ alphaOf 5 = 0.9) ↔ 5 < 6) ∧
    ((linewidthOf 7 = 1.8 ∧ alphaOf 7 = 0.7) ↔ 6 ≤ 7) :=
  ⟨(C5_leading_counts 10).1, (C5_leading_counts 10).2.2.1 2,
   (C5_leading_counts 10).2.2.2.1 5, (C5_leading_counts 10).2.2.2.2 7⟩

/-- C7: color assignment is palette[i mod 20], periodic with period 20
(the palette size); line-style assignment is styles[(i div 10) mod 4],
periodic with period 40, and constant on each block of ten consecutive
indices. -/
theorem C7_style_periodicity (i : Nat) :
    colors.length = 20 ∧
    line_styles.length = 4 ∧
    colorOf i = colors.getD (i % 20) "" ∧
    colorOf (i + 20) = colorOf i ∧
    lineStyleOf i = line_styles.getD ((i / 10) % 4) "" ∧
    lineStyleOf (i + 40) = lineStyleOf i ∧
    (∀ j : Nat, j / 10 = i / 10 → lineStyleOf j = lineStyleOf i) := by
  have hc : colors.length = 20 := rfl
  have hs : line_styles.length = 4 := rfl
  refine ⟨hc, hs, by rw [colorOf, hc], ?_, by rw [lineStyleOf, hs], ?_, ?_⟩
  · have : (i + 20) % 20 = i % 20 := by omega
    rw [colorOf, colorOf, hc, this]
  · have : ((i + 40) / 10) % 4 = (i / 10) % 4 := by omega
    rw [lineStyleOf, lineStyleOf, hs, this]
  · intro j hj
    rw [lineStyleOf, lineStyleOf, hj]

/-- Witness for C7 at concrete indices: the periodicities at i = 7, and
indices 75 and 72 (same block of ten) share a dash pattern. -/
theorem C7_style_periodicity_witness :
    colorOf 27 = colorOf 7 ∧ lineStyleOf 47 = lineStyleOf 7 ∧
    lineStyleOf 75 = lineStyleOf 72 :=
  ⟨(C7_style_periodicity 7).2.2.2.1, (C7_style_periodicity 7).2.2.2.2.2.1,
   (C7_style_periodicity 72).2.2.2.2.2.2 75 (by norm_num)⟩

/-- Helper: a single replace pass never lengthens the string. -/
theorem replaceDelAux_length_le (pat : List Char) :
    ∀ (fuel : Nat) (s : List Char),
      (replaceDelAux pat fuel s).length ≤ s.length := by
  intro fuel
  induction fuel with
  | zero => intro s; cases s <;> simp [replaceDelAux]
  | succ f ih =>
    intro s
    cases s with
    | nil => simp [replaceDelAux]
    | cons c rest =>
      by_cases h : pat ≠ [] ∧ pat.isPrefixOf (c :: rest)
      · simp only [replaceDelAux, if_pos h]
        calc (replaceDelAux pat f (rest.drop (pat.length - 1))).length
            ≤ (rest.drop (pat.length - 1)).length := ih _
          _ ≤ (c :: rest).length := by
              simp only [List.length_drop, List.length_cons]; omega
      · simp only [replaceDelAux, if_neg h, List.length_cons]
        exact Nat.succ_le_succ (ih rest)

/-- Helper: when the pattern does not occur in the string, a replace
pass leaves the string unchanged. -/
theorem replaceDelAux_no_occ (pat : List Char) :
    ∀ (fuel : Nat) (s : List Char), ¬ pat <:+: s →
      replaceDelAux pat fuel s = s := by
  intro fuel
  induction fuel with
  | zero => intro s _; cases s <;> simp [replaceDelAux]
  | succ f ih =>
    intro s hocc
    cases s with
    | nil => simp [replaceDelAux]
    | cons c rest =>
      have hnp : ¬ (pat ≠ [] ∧ pat.isPrefixOf (c :: rest)) := by
        rintro ⟨hne, hpre⟩
        exact hocc (List.IsPrefix.isInfix (List.isPrefixOf_iff_prefix.mp hpre))
      simp only [replaceDelAux, if_neg hnp]
      rw [ih rest (fun hi => hocc (List.infix_cons hi))]

/-- Helper: when a nonempty pattern occurs in the string and the fuel
covers the string, a replace pass removes at least one occurrence. -/
theorem replaceDelAux_occ (pat : List Char) (hne : pat ≠ []) :
    ∀ (fuel : Nat) (s : List Char), s.length ≤ fuel → pat <:+: s →
      (replaceDelAux pat fuel s).length + pat.length ≤ s.length := by
  intro fuel
  induction fuel with
  | zero =>
    intro s hlen hocc
    have hs : s = [] := List.length_eq_zero.mp (Nat.le_zero.mp hlen)
    subst hs
    exact absurd (List.infix_nil.mp hocc) hne
  | succ f ih =>
    intro s hlen hocc
    cases s with
    | nil => exact absurd (List.infix_nil.mp hocc) hne
    | cons c rest =>
      by_cases hpre : pat.isPrefixOf (c :: rest)
      · simp only [replaceDelAux, if_pos (And.intro hne hpre)]
        have h1 : (replaceDelAux pat f (rest.drop (pat.length - 1))).length
            ≤ (rest.drop (pat.length - 1)).length :=
          replaceDelAux_length_le pat f _
        have h2 : pat.length ≤ (c :: rest).length :=
          List.IsPrefix.length_le (List.isPrefixOf_iff_prefix.mp hpre)
        have hp1 : 1 ≤ pat.length := by
          cases pat with
          | nil => exact absurd rfl hne
          | cons _ _ => simp
        simp only [List.length_drop, List.length_cons] at h1 h2 ⊢
        omega
      · have hnp : ¬ (pat ≠ [] ∧ pat.isPrefixOf (c :: rest)) :=
          fun h => hpre h.2
        simp only [replaceDelAux, if_neg hnp]
        have hrest : pat <:+: rest := by
          rcases List.infix_cons_iff.mp hocc with h | h
          · exact absurd (List.isPrefixOf_iff_prefix.mpr h) hpre
          · exact h
        have hlen' : rest.length ≤ f := by
          simp only [List.length_cons] at hlen; omega
        have := ih rest hlen' hrest
        simp only [List.length_cons]
        omega

/-- Helper: replaceDel leaves a string without the pattern unchanged. -/
theorem replaceDel_no_occ (s pat : List Char) (h : ¬ pat <:+: s) :
    replaceDel s pat = s :=
  replaceDelAux_no_occ pat s.length s h

/-- Helper: replaceDel removes at least one occurrence of a nonempty
pattern that occurs. -/
theorem replaceDel_occ (s pat : List Char) (hne : pat ≠ [])
    (hocc : pat <:+: s) :
    (replaceDel s pat).length + pat.length ≤ s.length :=
  replaceDelAux_occ pat hne s.length s (Nat.le_refl _) hocc

/-- C6 counterexample: the claim that a processed label never contains
a suffix token fails.  Each replace is a single left-to-right pass, so
a removal can juxtapose fragments that form a token: for the name
"X Volunt Volunteerseers", removing " Volunteers" leaves
"X Volunteers", and the final label still contains " Volunteers". -/
theorem C6_counterexample :
    (" Volunteers".toList) <:+: labelOf 1 ("X Volunt Volunteerseers".toList) := by
  decide

/-- C6 amended: the label is the decimal rank, then a period and space,
then the name after one single-pass removal per token of the fixed
suffix list, in order; each pass removes every occurrence present
during that pass (a pass with no occurrence is the identity and a pass
with an occurrence shortens the string by at least the token length),
but a removal may recreate a token, so the label can still contain a
suffix token. -/
theorem C6_label_replace (t : Team) :
    label t = Nat.toDigits 10 t.rank ++ (". ".toList) ++
      List.foldl replaceDel t.team_name suffixTokens ∧
    (∀ s pat : List Char, ¬ pat <:+: s → replaceDel s pat = s) ∧
    (∀ s pat : List Char, pat ≠ [] → pat <:+: s →
      (replaceDel s pat).length + pat.length ≤ s.length) := by
  refine ⟨?_, fun s pat h => replaceDel_no_occ s pat h,
    fun s pat hne hocc => replaceDel_occ s pat hne hocc⟩
  simp only [label, labelOf, shortName, suffixTokens, List.foldl_cons,
    List.foldl_nil]

/-- Witness for C6 on concrete strings: label structure for a concrete
record, identity of a pass without occurrence, and shortening of a pass
with an occurrence. -/
theorem C6_label_replace_witness :
    label ⟨3, ("Duke Blue Devils".toList), 1900, 80⟩ =
      Nat.toDigits 10 3 ++ (". ".toList) ++
        List.foldl replaceDel ("Duke Blue Devils".toList) suffixTokens ∧
    (¬ (" Gators".toList) <:+: ("Duke".toList)) ∧
    replaceDel ("Duke".toList) (" Gators".toList) = ("Duke".toList) ∧
    (" Blue Devils".toList) ≠ ([] : List Char) ∧
    (" Blue Devils".toList) <:+: ("Duke Blue Devils".toList) ∧
    (replaceDel ("Duke Blue Devils".toList) (" Blue Devils".toList)).length +
      (" Blue Devils".toList).length ≤ ("Duke Blue Devils".toList).length :=
  ⟨(C6_label_replace ⟨3, ("Duke Blue Devils".toList), 1900, 80⟩).1,
   by decide,
   (C6_label_replace ⟨3, ("Duke Blue Devils".toList), 1900, 80⟩).2.1
     ("Duke".toList) (" Gators".toList) (by decide),
   by decide,
   by decide,
   (C6_label_replace ⟨3, ("Duke Blue Devils".toList), 1900, 80⟩).2.2
     ("Duke Blue Devils".toList) (" Blue Devils".toList)
     (by decide) (by decide)⟩

/-- Helper: the density at its own mean is 1/(std sqrt(2 pi)). -/
theorem normPdf_peak (mean std : ℝ) :
    normPdf mean mean std = 1 / (std * Real.sqrt (2 * Real.pi)) := by
  simp [normPdf]

/-- C1: for spread > 0 the rendered value at the mean is
(spread * 2.5) * pdf(mean, mean, spread) = 2.5 / sqrt(2 pi), a constant
independent of the spread; scaling the spread by c > 0 divides the
unscaled peak by c and leaves the rescaled peak unchanged. -/
theorem C1_rescaled_peak_constant (mean std c : ℝ)
    (hstd : 0 < std) (hc : 0 < c) :
    pdf_scaled mean mean std = 2.5 / Real.sqrt (2 * Real.pi) ∧
    normPdf mean mean (c * std) = (1 / c) * normPdf mean mean std ∧
    pdf_scaled mean mean (c * std) = pdf_scaled mean mean std := by
  have hsqrt : 0 < Real.sqrt (2 * Real.pi) :=
    Real.sqrt_pos.mpr (by positivity)
  have hs' : Real.sqrt (2 * Real.pi) ≠ 0 := ne_of_gt hsqrt
  have hstd' : std ≠ 0 := ne_of_gt hstd
  have hc' : c ≠ 0 := ne_of_gt hc
  have hpeak : ∀ s : ℝ, s ≠ 0 →
      pdf_scaled mean mean s = 2.5 / Real.sqrt (2 * Real.pi) := by
    intro s hs
    rw [pdf_scaled, normPdf_peak]
    field_simp
    ring
  refine ⟨hpeak std hstd', ?_, ?_⟩
  · rw [normPdf_peak, normPdf_peak]
    field_simp
    ring
  · rw [hpeak std hstd', hpeak (c * std) (mul_ne_zero hc' hstd')]

/-- Witness for C1 at mean 1500, spread 80, factor 2. -/
theorem C1_rescaled_peak_constant_witness :
    (0:ℝ) < 80 ∧ (0:ℝ) < 2 ∧
    (pdf_scaled 1500 1500 80 = 2.5 / Real.sqrt (2 * Real.pi) ∧
     normPdf 1500 1500 (2 * 80) = (1 / 2) * normPdf 1500 1500 80 ∧
     pdf_scaled 1500 1500 (2 * 80) = pdf_scaled 1500 1500 80) :=
  ⟨by norm_num, by norm_num,
   C1_rescaled_peak_constant 1500 80 2 (by norm_num) (by norm_num)⟩

/-- C8: for spread > 0 the density at the mean equals
1/(spread sqrt(2 pi)) and dominates the density at every point of the
sampled domain. -/
theorem C8_peak_at_mean (mean std : ℝ) (hstd : 0 < std) :
    normPdf mean mean std = 1 / (std * Real.sqrt (2 * Real.pi)) ∧
    ∀ x ∈ xs, normPdf x mean std ≤ normPdf mean mean std := by
  have hsqrt : 0 < Real.sqrt (2 * Real.pi) :=
    Real.sqrt_pos.mpr (by positivity)
  have hD : 0 < std * Real.sqrt (2 * Real.pi) := mul_pos hstd hsqrt
  refine ⟨normPdf_peak mean std, ?_⟩
  intro x _
  rw [normPdf, normPdf_peak]
  have hexp : Real.exp (-(x - mean) ^ 2 / (2 * std ^ 2)) ≤ 1 := by
    rw [show (1:ℝ) = Real.exp 0 from (Real.exp_zero).symm]
    apply Real.exp_le_exp.mpr
    apply div_nonpos_of_nonpos_of_nonneg
    · exact neg_nonpos.mpr (sq_nonneg (x - mean))
    · positivity
  exact (div_le_div_iff_of_pos_right hD).mpr hexp

/-- Witness for C8 at mean 1500, spread 80. -/
theorem C8_peak_at_mean_witness :
    (0:ℝ) < 80 ∧
    (normPdf 1500 1500 80 = 1 / (80 * Real.sqrt (2 * Real.pi)) ∧
     ∀ x ∈ xs, normPdf x 1500 80 ≤ normPdf 1500 1500 80) :=
  ⟨by norm_num, C8_peak_at_mean 1500 80 (by norm_num)⟩

/-- C2 counterexample: on the empty input the run does not fail and
the image is still produced - there is no emptiness check before the
drawing and saving steps. -/
theorem C2_counterexample :
    renderOk (render ([] : List Team)) = true ∧
    isSaved (render ([] : List Team)) = true :=
  ⟨rfl, rfl⟩

/-- C2 amended: the program never signals an error for any input list;
on the empty list it draws zero curves and still saves the image (the
script has no EmptyInputError and no emptiness check). -/
theorem C2_no_empty_check (teams : List Team) :
    renderOk (render teams) = true ∧ isSaved (render teams) = true ∧
    (curvesOf (render teams)).length = teams.length := by
  refine ⟨rfl, rfl, ?_⟩
  simp [render, curvesOf]

/-- Witness for C2 on the empty input. -/
theorem C2_no_empty_check_witness :
    renderOk (render ([] : List Team)) = true ∧
    isSaved (render ([] : List Team)) = true ∧
    (curvesOf (render ([] : List Team))).length = ([] : List Team).length :=
  C2_no_empty_check []

/-- C3 counterexample: a record with spread 0 does not make the run
fail; no error is signalled and the image is produced. -/
theorem C3_counterexample :
    renderOk (render [(⟨1, ("Alabama Crimson Tide".toList), 1800, 0⟩ : Team)])
      = true ∧
    isSaved (render [(⟨1, ("Alabama Crimson Tide".toList), 1800, 0⟩ : Team)])
      = true :=
  ⟨rfl, rfl⟩

/-- C3 amended: a non-positive spread is not rejected: scipy returns
nan for the density instead of raising, the curve is drawn from those
values, and the run still completes and saves the image (the script has
no InvalidParameterError and no spread check). -/
theorem C3_no_spread_check (teams : List Team)
    (h : ∃ t ∈ teams, t.std_dev ≤ 0) :
    renderOk (render teams) = true ∧ isSaved (render teams) = true :=
  ⟨rfl, rfl⟩

/-- Witness for C3 at a singleton list with spread 0. -/
theorem C3_no_spread_check_witness :
    (∃ t ∈ [(⟨1, ("Alabama Crimson Tide".toList), 1800, 0⟩ : Team)],
      t.std_dev ≤ 0) ∧
    (renderOk (render [(⟨1, ("Alabama Crimson Tide".toList), 1800, 0⟩ : Team)])
      = true ∧
     isSaved (render [(⟨1, ("Alabama Crimson Tide".toList), 1800, 0⟩ : Team)])
      = true) :=
  ⟨⟨_, List.mem_singleton.mpr rfl, le_refl (0:ℝ)⟩,
   C3_no_spread_check _ ⟨_, List.mem_singleton.mpr rfl, le_refl (0:ℝ)⟩⟩

/-- C9: a run reads nothing but the input records - two runs in
arbitrary ambient environments produce the same curves, styles, labels
and output. -/
theorem C9_deterministic (e1 e2 : Env) (teams : List Team) :
    renderRun e1 teams = renderRun e2 teams ∧
    curvesOf (renderRun e1 teams) = curvesOf (renderRun e2 teams) ∧
    labelsOf (renderRun e1 teams) = labelsOf (renderRun e2 teams) :=
  ⟨rfl, rfl, rfl⟩

/-- Witness for C9 with two different environments. -/
theorem C9_deterministic_witness :
    renderRun ⟨0, 0⟩ ([] : List Team) = renderRun ⟨1, 1⟩ ([] : List Team) :=
  (C9_deterministic ⟨0, 0⟩ ⟨1, 1⟩ []).1

/-- Helper: the curves depend only on mean and spread. -/
theorem map_curve_congr :
    ∀ {ts us : List Team}, List.Forall₂ TeamVisualEq ts us →
      ts.map curve = us.map curve := by
  intro ts us h
  induction h with
  | nil => rfl
  | @cons a b l1 l2 hab htl ih =>
    simp only [List.map_cons]
    rw [ih]
    have : curve a = curve b := by
      rw [curve, curve, hab.2.1, hab.2.2]
    rw [this]

/-- C10: the visual treatment (curves, colors, dash patterns, widths,
opacities, fills) is unchanged when only the rank fields of the records
change; the rank enters the output only as the decimal prefix of the
legend label. -/
theorem C10_rank_does_not_drive_styles (ts us : List Team)
    (h : List.Forall₂ TeamVisualEq ts us) :
    curvesOf (render ts) = curvesOf (render us) ∧
    colorsOf (render ts) = colorsOf (render us) ∧
    stylesOf (render ts) = stylesOf (render us) ∧
    widthsOf (render ts) = widthsOf (render us) ∧
    alphasOf (render ts) = alphasOf (render us) ∧
    fillsOf (render ts) = fillsOf (render us) ∧
    labelsOf (render ts) = ts.map (fun t => Nat.toDigits 10 t.rank ++
      (". ".toList) ++ shortName t.team_name) ∧
    labelsOf (render us) = us.map (fun t => Nat.toDigits 10 t.rank ++
      (". ".toList) ++ shortName t.team_name) ∧
    List.Forall₂ (fun t u => shortName t.team_name = shortName u.team_name)
      ts us := by
  have hlen : ts.length = us.length := List.Forall₂.length_eq h
  refine ⟨?_, ?_, ?_, ?_, ?_, ?_, ?_, ?_, ?_⟩
  · simp only [render, curvesOf]
    exact map_curve_congr h
  · simp only [render, colorsOf, hlen]
  · simp only [render, stylesOf, hlen]
  · simp only [render, widthsOf, hlen]
  · simp only [render, alphasOf, hlen]
  · simp only [render, fillsOf, hlen]
  · rfl
  · rfl
  · exact List.Forall₂.imp (fun a b hv => congrArg shortName hv.1) h

/-- Witness for C10: two singleton inputs whose records differ only in
rank get the same curve and the same fill flag. -/
theorem C10_rank_does_not_drive_styles_witness :
    List.Forall₂ TeamVisualEq
      [(⟨1, ("Duke Blue Devils".toList), 1900, 80⟩ : Team)]
      [(⟨2, ("Duke Blue Devils".toList), 1900, 80⟩ : Team)] ∧
    curvesOf (render [(⟨1, ("Duke Blue Devils".toList), 1900, 80⟩ : Team)]) =
      curvesOf (render [(⟨2, ("Duke Blue Devils".toList), 1900, 80⟩ : Team)]) ∧
    fillsOf (render [(⟨1, ("Duke Blue Devils".toList), 1900, 80⟩ : Team)]) =
      fillsOf (render [(⟨2, ("Duke Blue Devils".toList), 1900, 80⟩ : Team)]) :=
  ⟨List.Forall₂.cons ⟨rfl, rfl, rfl⟩ List.Forall₂.nil,
   (C10_rank_does_not_drive_styles _ _
     (List.Forall₂.cons ⟨rfl, rfl, rfl⟩ List.Forall₂.nil)).1,
   (C10_rank_does_not_drive_styles _ _
     (List.Forall₂.cons ⟨rfl, rfl, rfl⟩ List.Forall₂.nil)).2.2.2.2.2.1⟩
